import Mathlib

/-!
Verification of the test-environment reclamation subsystem of
`s3tests_boto3/functional/__init__.py`: the paginated version lister
(`list_versions`), the two-pass bucket reclaimer (`nuke_bucket`), the
namespace reclaimer (`nuke_prefixed_buckets`), and the transparent
call-instrumentation proxy (`log_and_call` / `WrappedClient`).

The storage API is modelled as an oracle: the sequence of listing pages the
server would return, the per-call delete-error lists, the retention-probe
results, and the current time.  Each embedded function also produces the
trace of API calls it issues, so that ordering and omission properties
(no sleep, no bucket delete, second enumeration pass) are statable.
Timestamps are rationals (seconds), mirroring the microsecond-exact
datetime arithmetic of the source.
-/

/-- One Key plus VersionId reference, as produced by `list_versions` for
`delete_objects`. -/
structure ObjectVersionRef where
  key : String
  versionId : String
deriving DecidableEq, Repr

/-- One response of `list_object_versions`: `Versions`, `DeleteMarkers`,
`IsTruncated`, `NextKeyMarker`, `NextVersionIdMarker` (the markers may be
absent, hence `Option`). -/
structure ListingResponse where
  versions : List ObjectVersionRef
  deleteMarkers : List ObjectVersionRef
  isTruncated : Bool
  nextKeyMarker : Option String
  nextVersionIdMarker : Option String
deriving DecidableEq, Repr

/-- The kwargs of one `list_object_versions` call.  A marker field is
`none` when the key is absent from kwargs (first request) and
`some v` when present, `v` itself being the optional marker value taken
from the previous response. -/
structure LVRequest where
  bucket : String
  maxKeys : Nat
  keyMarker : Option (Option String)
  versionIdMarker : Option (Option String)
deriving DecidableEq, Repr

/-- The body of the `while truncated` loop of `list_versions`, consuming the
server's successive responses.  Each step records the request issued
(built from the current kwargs) paired with the batch the generator yields
for that page (`none` when the page is empty: empty pages are skipped).
The returned flag is `true` when the loop exited because `IsTruncated`
was false, `false` when the supplied responses ran out first. -/
def listVersionsAux (bucket : String) (batchSize : Nat)
    (km vm : Option (Option String)) :
    List ListingResponse → List (LVRequest × Option (List ObjectVersionRef)) × Bool
  | [] => ([], false)
  | page :: rest =>
    let req : LVRequest := ⟨bucket, batchSize, km, vm⟩
    let objs := page.versions ++ page.deleteMarkers
    let yielded : Option (List ObjectVersionRef) := if objs.isEmpty then none else some objs
    if page.isTruncated then
      let r := listVersionsAux bucket batchSize
        (some page.nextKeyMarker) (some page.nextVersionIdMarker) rest
      ((req, yielded) :: r.1, r.2)
    else
      ([(req, yielded)], true)

/-- The generator `list_versions(client, bucket, batch_size)`: pagination starts with no
markers. -/
def list_versions (bucket : String) (batchSize : Nat)
    (pages : List ListingResponse) :
    List (LVRequest × Option (List ObjectVersionRef)) × Bool :=
  listVersionsAux bucket batchSize none none pages

/-- Well-formed pagination: at least one response, every response before the
last has `IsTruncated` true, and the last has it false. -/
def wfPages : List ListingResponse → Bool
  | [] => false
  | [p] => !p.isTruncated
  | p :: q :: rest => p.isTruncated && wfPages (q :: rest)

/-- The contents of one page, in the order `list_versions` concatenates
them: `Versions` then `DeleteMarkers`. -/
def pageObjs (p : ListingResponse) : List ObjectVersionRef :=
  p.versions ++ p.deleteMarkers

/-- Unfolding: a truncated page records its request and batch, and iteration
continues with that page's next markers. -/
theorem listVersionsAux_cons_true (bucket : String) (batchSize : Nat)
    (km vm : Option (Option String)) (p : ListingResponse)
    (rest : List ListingResponse) (hp : p.isTruncated = true) :
    listVersionsAux bucket batchSize km vm (p :: rest) =
      (((⟨bucket, batchSize, km, vm⟩ : LVRequest),
          if (pageObjs p).isEmpty then none else some (pageObjs p)) ::
        (listVersionsAux bucket batchSize
          (some p.nextKeyMarker) (some p.nextVersionIdMarker) rest).1,
       (listVersionsAux bucket batchSize
          (some p.nextKeyMarker) (some p.nextVersionIdMarker) rest).2) := by
  simp [listVersionsAux, hp, pageObjs]

/-- Unfolding: a non-truncated page ends iteration after its own request. -/
theorem listVersionsAux_cons_false (bucket : String) (batchSize : Nat)
    (km vm : Option (Option String)) (p : ListingResponse)
    (rest : List ListingResponse) (hp : p.isTruncated = false) :
    listVersionsAux bucket batchSize km vm (p :: rest) =
      ([((⟨bucket, batchSize, km, vm⟩ : LVRequest),
          if (pageObjs p).isEmpty then none else some (pageObjs p))], true) := by
  simp [listVersionsAux, hp, pageObjs]

theorem listVersionsAux_spec (bucket : String) (batchSize : Nat) :
    ∀ (pages : List ListingResponse) (km vm : Option (Option String)),
      wfPages pages = true →
      (∀ p ∈ pages, (pageObjs p).length ≤ batchSize) →
      (listVersionsAux bucket batchSize km vm pages).2 = true ∧
      (listVersionsAux bucket batchSize km vm pages).1.map Prod.fst =
        (⟨bucket, batchSize, km, vm⟩ : LVRequest) ::
          pages.dropLast.map (fun p =>
            ⟨bucket, batchSize, some p.nextKeyMarker, some p.nextVersionIdMarker⟩) ∧
      ((listVersionsAux bucket batchSize km vm pages).1.filterMap Prod.snd).flatten =
        (pages.map pageObjs).flatten ∧
      (∀ b ∈ (listVersionsAux bucket batchSize km vm pages).1.filterMap Prod.snd,
        b ≠ [] ∧ b.length ≤ batchSize) ∧
      (∀ junk, listVersionsAux bucket batchSize km vm (pages ++ junk) =
        listVersionsAux bucket batchSize km vm pages) := by
  intro pages
  induction pages with
  | nil => intro km vm hwf _; simp [wfPages] at hwf
  | cons p rest ih =>
    intro km vm hwf hsz
    cases rest with
    | nil =>
      have hp : p.isTruncated = false := by
        simpa [wfPages] using hwf
      have hobj : (pageObjs p).length ≤ batchSize := hsz p (by simp)
      rw [listVersionsAux_cons_false bucket batchSize km vm p [] hp]
      refine ⟨rfl, by simp, ?_, ?_, ?_⟩
      · by_cases h : pageObjs p = [] <;> simp [h]
      · intro b hb
        by_cases h : pageObjs p = [] <;> simp [h] at hb
        rcases hb with rfl
        exact ⟨h, hobj⟩
      · intro junk
        rw [List.cons_append, List.nil_append,
          listVersionsAux_cons_false bucket batchSize km vm p junk hp]
    | cons q rest' =>
      have hp : p.isTruncated = true := by
        simp [wfPages] at hwf; exact hwf.1
      have hwf' : wfPages (q :: rest') = true := by
        simp [wfPages] at hwf; exact hwf.2
      have hsz' : ∀ x ∈ q :: rest', (pageObjs x).length ≤ batchSize := by
        intro x hx; exact hsz x (by simp [hx])
      have hobj : (pageObjs p).length ≤ batchSize := hsz p (by simp)
      obtain ⟨ht, hreq, hjoin, hbat, hterm⟩ :=
        ih (some p.nextKeyMarker) (some p.nextVersionIdMarker) hwf' hsz'
      rw [listVersionsAux_cons_true bucket batchSize km vm p (q :: rest') hp]
      refine ⟨ht, ?_, ?_, ?_, ?_⟩
      · have hdl : (p :: q :: rest').dropLast = p :: (q :: rest').dropLast := by
          simp [List.dropLast]
        simp only [List.map_cons, hreq, hdl]
      · by_cases h : pageObjs p = [] <;>
          simp [List.filterMap_cons, h, hjoin]
      · intro b hb
        by_cases h : pageObjs p = [] <;>
          simp only [List.filterMap_cons, h, if_true, if_false, List.isEmpty_iff,
            List.mem_cons] at hb
        · exact hbat b hb
        · rcases hb with rfl | hb
          · exact ⟨h, hobj⟩
          · exact hbat b hb
      · intro junk
        rw [List.cons_append,
          listVersionsAux_cons_true bucket batchSize km vm p (q :: rest' ++ junk) hp,
          hterm junk]

/-- C4: for a well-formed paginated listing whose pages respect the
`MaxKeys` bound, `list_versions` terminates at the first non-truncated
response (extra responses beyond it are never requested), issues the first
request with no markers and each follow-up request with exactly the
previous response's `NextKeyMarker`/`NextVersionIdMarker`, and yields
non-empty batches of size at most `batchSize` whose concatenation is
exactly the full set of version references. -/
theorem list_versions_spec (bucket : String) (batchSize : Nat)
    (pages : List ListingResponse)
    (hwf : wfPages pages = true)
    (hsz : ∀ p ∈ pages, (pageObjs p).length ≤ batchSize) :
    (list_versions bucket batchSize pages).2 = true ∧
    (list_versions bucket batchSize pages).1.map Prod.fst =
      (⟨bucket, batchSize, none, none⟩ : LVRequest) ::
        pages.dropLast.map (fun p =>
          ⟨bucket, batchSize, some p.nextKeyMarker, some p.nextVersionIdMarker⟩) ∧
    ((list_versions bucket batchSize pages).1.filterMap Prod.snd).flatten =
      (pages.map pageObjs).flatten ∧
    (∀ b ∈ (list_versions bucket batchSize pages).1.filterMap Prod.snd,
      b ≠ [] ∧ b.length ≤ batchSize) ∧
    (∀ junk, list_versions bucket batchSize (pages ++ junk) =
      list_versions bucket batchSize pages) :=
  listVersionsAux_spec bucket batchSize pages none none hwf hsz

/-- One entry of the `Errors` list of a `delete_objects` response: `Key`,
`VersionId`, and the (possibly absent) `Code`. -/
structure DeleteError where
  key : String
  versionId : String
  code : Option String
deriving DecidableEq, Repr

/-- The storage-API behaviour visible to one `nuke_bucket` call: the
listing pages served in pass 1, the `Errors` lists of the successive
pass-1 `delete_objects` calls, the `get_object_retention` results
(`none` models a `ClientError`, `some t` a retention with
`RetainUntilDate` `t`), the clock value observed by `datetime.now`, and
the listing pages served in pass 2.  Timestamps are rational seconds. -/
structure NukeOracle where
  pass1Pages : List ListingResponse
  deleteErrors : List (List DeleteError)
  probe : String → String → Option ℚ
  now : ℚ
  pass2Pages : List ListingResponse

/-- One API call issued by `nuke_bucket`, in trace order. -/
inductive Event where
  | listReq (req : LVRequest)
  | deleteObjects (bucket : String) (objects : List ObjectVersionRef)
      (quiet bypass : Bool)
  | getRetention (bucket key versionId : String)
  | sleep (seconds : ℚ)
  | deleteBucket (bucket : String)
deriving DecidableEq, Repr

/-- The update `if not max_retain_date or max_retain_date < retain_date:
max_retain_date = retain_date` (a datetime is always truthy, so only
`None` fails the first test). -/
def updateRetain (m : Option ℚ) (r : ℚ) : Option ℚ :=
  match m with
  | none => some r
  | some m' => if m' < r then some r else some m'

/-- The inner loop over one delete response's `Errors`: errors whose
`Code` is not `AccessDenied` are skipped; for the others a retention
probe is issued, a successful probe updates the running maximum, and a
failing probe (`ClientError`) is swallowed. -/
def probeAll (o : NukeOracle) (bucket : String) :
    List DeleteError → Option ℚ → List Event × Option ℚ
  | [], mrd => ([], mrd)
  | e :: rest, mrd =>
    if e.code = some "AccessDenied" then
      let mrd1 := match o.probe e.key e.versionId with
        | some r => updateRetain mrd r
        | none => mrd
      let r := probeAll o bucket rest mrd1
      (Event.getRetention bucket e.key e.versionId :: r.1, r.2)
    else
      probeAll o bucket rest mrd

/-- The pass-1 `for objects in list_versions(...)` loop: each page's
listing request, then (when the page yielded a batch) the quiet
bypass-retention `delete_objects` call, then the probes over that call's
`Errors`.  `i` counts the delete calls issued so far, indexing into the
oracle's responses. -/
def pass1Go (o : NukeOracle) (bucket : String) :
    List (LVRequest × Option (List ObjectVersionRef)) → Nat → Option ℚ →
      List Event × Option ℚ
  | [], _, mrd => ([], mrd)
  | (req, none) :: rest, i, mrd =>
    let r := pass1Go o bucket rest i mrd
    (Event.listReq req :: r.1, r.2)
  | (req, some objs) :: rest, i, mrd =>
    let pa := probeAll o bucket (o.deleteErrors.getD i []) mrd
    let r := pass1Go o bucket rest (i + 1) pa.2
    (Event.listReq req :: Event.deleteObjects bucket objs true true :: (pa.1 ++ r.1),
     r.2)

/-- Pass 1 of `nuke_bucket`: batch size 128, starting with no retention
maximum. -/
def nukePass1Run (o : NukeOracle) (bucket : String) : List Event × Option ℚ :=
  pass1Go o bucket (list_versions bucket 128 o.pass1Pages).1 0 none

/-- The pass-2 loop: the same listing requests and quiet bypass-retention
deletes, with the responses' `Errors` ignored. -/
def pass2Go (bucket : String) :
    List (LVRequest × Option (List ObjectVersionRef)) → List Event
  | [] => []
  | (req, none) :: rest => Event.listReq req :: pass2Go bucket rest
  | (req, some objs) :: rest =>
    Event.listReq req :: Event.deleteObjects bucket objs true true ::
      pass2Go bucket rest

/-- The events of pass 2 of `nuke_bucket`. -/
def pass2Events (o : NukeOracle) (bucket : String) : List Event :=
  pass2Go bucket (list_versions bucket 128 o.pass2Pages).1

/-- The `RuntimeError` message raised when the discovered retention
exceeds the 60-second bound, with the bucket name and remaining seconds
interpolated. -/
def retainMsg (bucket : String) (secs : ℚ) : String :=
  "bucket " ++ bucket ++ " still has objects locked for " ++ toString secs ++
    " more seconds, not waiting for bucket cleanup"

/-- The reclaimer `nuke_bucket(client, bucket)`: pass 1 with retention probing; then,
only when a retention maximum was discovered: the bounded wait (fail
fast above 60 seconds, sleep the exact remaining time otherwise, no wait
when already expired) followed by pass 2; finally `delete_bucket`. -/
def nuke_bucket (o : NukeOracle) (bucket : String) :
    List Event × Except String Unit :=
  let p := nukePass1Run o bucket
  match p.2 with
  | none => (p.1 ++ [Event.deleteBucket bucket], Except.ok ())
  | some m =>
    if m > o.now then
      if m - o.now > 60 then
        (p.1, Except.error (retainMsg bucket (m - o.now)))
      else
        (p.1 ++ [Event.sleep (m - o.now)] ++ pass2Events o bucket ++
          [Event.deleteBucket bucket], Except.ok ())
    else
      (p.1 ++ pass2Events o bucket ++ [Event.deleteBucket bucket],
       Except.ok ())

/-- Discriminator for listing-request events. -/
def Event.isListReq : Event → Bool
  | .listReq _ => true
  | _ => false

/-- Discriminator for sleep events. -/
def Event.isSleep : Event → Bool
  | .sleep _ => true
  | _ => false

/-- Discriminator for bucket-delete events. -/
def Event.isDeleteBucket : Event → Bool
  | .deleteBucket _ => true
  | _ => false

/-- Extracts the `(bucket, key, versionId)` of a retention-probe event. -/
def Event.retentionTarget : Event → Option (String × String × String)
  | .getRetention b k v => some (b, k, v)
  | _ => none

/-- The `Errors` encountered by the pass-1 loop from position `i` on, in
order: one response list per delete call actually issued. -/
def errsFrom (o : NukeOracle) :
    List (LVRequest × Option (List ObjectVersionRef)) → Nat → List DeleteError
  | [], _ => []
  | (_, none) :: rest, i => errsFrom o rest i
  | (_, some _) :: rest, i => o.deleteErrors.getD i [] ++ errsFrom o rest (i + 1)

/-- All per-object delete errors returned during pass 1: the `Errors`
lists of the delete calls, one per yielded batch, concatenated in call
order. -/
def pass1Errors (o : NukeOracle) (bucket : String) : List DeleteError :=
  ((List.range ((list_versions bucket 128 o.pass1Pages).1.filterMap Prod.snd).length).map
    (fun i => o.deleteErrors.getD i [])).flatten

/-- The pass-1 delete errors attributed to a retention hold: exactly those
whose `Code` is `AccessDenied`. -/
def deniedErrors (o : NukeOracle) (bucket : String) : List DeleteError :=
  (pass1Errors o bucket).filter (fun e => e.code = some "AccessDenied")

theorem updateRetain_some (m r : ℚ) : updateRetain (some m) r = some (max m r) := by
  rcases lt_or_ge m r with h | h
  · simp [updateRetain, h, max_eq_right h.le]
  · simp [updateRetain, not_lt.mpr h, max_eq_left h]

theorem foldl_updateRetain_some :
    ∀ (l : List ℚ) (m : ℚ), l.foldl updateRetain (some m) = some (l.foldl max m) := by
  intro l
  induction l with
  | nil => intro m; rfl
  | cons a l ih =>
    intro m
    simp only [List.foldl_cons, updateRetain_some, ih]

theorem foldl_updateRetain_none (l : List ℚ) :
    l.foldl updateRetain none = l.max? := by
  cases l with
  | nil => rfl
  | cons a l =>
    simp only [List.foldl_cons, List.max?]
    exact foldl_updateRetain_some l a

theorem probeAll_events (o : NukeOracle) (bucket : String) :
    ∀ (errs : List DeleteError) (mrd : Option ℚ),
      (probeAll o bucket errs mrd).1 =
        (errs.filter (fun e => e.code = some "AccessDenied")).map
          (fun e => Event.getRetention bucket e.key e.versionId) := by
  intro errs
  induction errs with
  | nil => intro mrd; rfl
  | cons e rest ih =>
    intro mrd
    by_cases hc : e.code = some "AccessDenied"
    · cases hp : o.probe e.key e.versionId <;>
        simp [probeAll, hc, hp, List.filter_cons, ih]
    · simp [probeAll, hc, List.filter_cons, ih]

theorem probeAll_mrd (o : NukeOracle) (bucket : String) :
    ∀ (errs : List DeleteError) (mrd : Option ℚ),
      (probeAll o bucket errs mrd).2 =
        ((errs.filter (fun e => e.code = some "AccessDenied")).filterMap
          (fun e => o.probe e.key e.versionId)).foldl updateRetain mrd := by
  intro errs
  induction errs with
  | nil => intro mrd; rfl
  | cons e rest ih =>
    intro mrd
    by_cases hc : e.code = some "AccessDenied"
    · cases hp : o.probe e.key e.versionId <;>
        simp [probeAll, hc, hp, List.filter_cons, List.filterMap_cons, ih]
    · simp [probeAll, hc, List.filter_cons, ih]

theorem pass1Go_retention_events (o : NukeOracle) (bucket : String) :
    ∀ (pairs : List (LVRequest × Option (List ObjectVersionRef))) (i : Nat)
      (mrd : Option ℚ),
      ((pass1Go o bucket pairs i mrd).1.filterMap Event.retentionTarget) =
        ((errsFrom o pairs i).filter (fun e => e.code = some "AccessDenied")).map
          (fun e => (bucket, e.key, e.versionId)) := by
  intro pairs
  induction pairs with
  | nil => intro i mrd; rfl
  | cons pr rest ih =>
    intro i mrd
    rcases pr with ⟨req, y⟩
    cases y with
    | none =>
      simp only [pass1Go, errsFrom, List.filterMap_cons, Event.retentionTarget]
      exact ih i mrd
    | some objs =>
      simp only [pass1Go, errsFrom, List.filterMap_cons, Event.retentionTarget,
        List.filterMap_append, List.filter_append, List.map_append,
        probeAll_events, List.filterMap_map]
      rw [ih]
      congr 1
      simp only [Function.comp_def, Event.retentionTarget]
      exact congrFun
        (List.filterMap_eq_map (fun e : DeleteError => (bucket, e.key, e.versionId))) _

theorem pass1Go_mrd (o : NukeOracle) (bucket : String) :
    ∀ (pairs : List (LVRequest × Option (List ObjectVersionRef))) (i : Nat)
      (mrd : Option ℚ),
      (pass1Go o bucket pairs i mrd).2 =
        (((errsFrom o pairs i).filter (fun e => e.code = some "AccessDenied")).filterMap
          (fun e => o.probe e.key e.versionId)).foldl updateRetain mrd := by
  intro pairs
  induction pairs with
  | nil => intro i mrd; rfl
  | cons pr rest ih =>
    intro i mrd
    rcases pr with ⟨req, y⟩
    cases y with
    | none =>
      simp only [pass1Go, errsFrom]
      exact ih i mrd
    | some objs =>
      simp only [pass1Go, errsFrom, List.filter_append, List.filterMap_append,
        List.foldl_append, probeAll_mrd]
      exact ih (i + 1) _

theorem errsFrom_range (o : NukeOracle) :
    ∀ (pairs : List (LVRequest × Option (List ObjectVersionRef))) (i : Nat),
      errsFrom o pairs i =
        ((List.range (pairs.filterMap Prod.snd).length).map
          (fun j => o.deleteErrors.getD (i + j) [])).flatten := by
  intro pairs
  induction pairs with
  | nil => intro i; rfl
  | cons pr rest ih =>
    intro i
    rcases pr with ⟨req, y⟩
    cases y with
    | none =>
      simp only [errsFrom, List.filterMap_cons]
      exact ih i
    | some objs =>
      simp only [errsFrom, List.filterMap_cons, List.length_cons,
        List.range_succ_eq_map, List.map_cons, List.flatten_cons, Nat.add_zero,
        List.map_map]
      rw [ih (i + 1)]
      congr 1
      congr 1
      apply List.map_congr_left
      intro j _
      have h : i + 1 + j = i + (j + 1) := by omega
      simp [Function.comp_def, h]

theorem probeAll_kinds (o : NukeOracle) (bucket : String) :
    ∀ (errs : List DeleteError) (mrd : Option ℚ),
      ∀ e ∈ (probeAll o bucket errs mrd).1,
        e.isSleep = false ∧ e.isDeleteBucket = false ∧ e.isListReq = false := by
  intro errs mrd e he
  rw [probeAll_events] at he
  obtain ⟨x, _, rfl⟩ := List.mem_map.mp he
  exact ⟨rfl, rfl, rfl⟩

theorem pass1Go_kinds (o : NukeOracle) (bucket : String) :
    ∀ (pairs : List (LVRequest × Option (List ObjectVersionRef))) (i : Nat)
      (mrd : Option ℚ),
      ∀ e ∈ (pass1Go o bucket pairs i mrd).1,
        e.isSleep = false ∧ e.isDeleteBucket = false := by
  intro pairs
  induction pairs with
  | nil => intro i mrd e he; simp [pass1Go] at he
  | cons pr rest ih =>
    intro i mrd e he
    rcases pr with ⟨req, y⟩
    cases y with
    | none =>
      simp only [pass1Go, List.mem_cons] at he
      rcases he with rfl | he
      · exact ⟨rfl, rfl⟩
      · exact ih i mrd e he
    | some objs =>
      simp only [pass1Go, List.mem_cons, List.mem_append] at he
      rcases he with rfl | rfl | he | he
      · exact ⟨rfl, rfl⟩
      · exact ⟨rfl, rfl⟩
      · obtain ⟨h1, h2, _⟩ := probeAll_kinds o bucket _ _ e he
        exact ⟨h1, h2⟩
      · exact ih (i + 1) _ e he

theorem pass2Go_kinds (bucket : String) :
    ∀ (pairs : List (LVRequest × Option (List ObjectVersionRef))),
      ∀ e ∈ pass2Go bucket pairs,
        e.isSleep = false ∧ e.isDeleteBucket = false := by
  intro pairs
  induction pairs with
  | nil => intro e he; simp [pass2Go] at he
  | cons pr rest ih =>
    intro e he
    rcases pr with ⟨req, y⟩
    cases y with
    | none =>
      simp only [pass2Go, List.mem_cons] at he
      rcases he with rfl | he
      · exact ⟨rfl, rfl⟩
      · exact ih e he
    | some objs =>
      simp only [pass2Go, List.mem_cons] at he
      rcases he with rfl | rfl | he
      · exact ⟨rfl, rfl⟩
      · exact ⟨rfl, rfl⟩
      · exact ih e he

/-- Pass-1 probe behaviour: which probes are issued and what maximum is
accumulated. -/
theorem nukePass1_probe_spec (o : NukeOracle) (bucket : String) :
    ((nukePass1Run o bucket).1.filterMap Event.retentionTarget) =
      (deniedErrors o bucket).map (fun e => (bucket, e.key, e.versionId)) ∧
    (nukePass1Run o bucket).2 =
      ((deniedErrors o bucket).filterMap (fun e => o.probe e.key e.versionId)).max? := by
  have herr : errsFrom o (list_versions bucket 128 o.pass1Pages).1 0 =
      pass1Errors o bucket := by
    rw [errsFrom_range]
    simp [pass1Errors]
  constructor
  · rw [nukePass1Run, pass1Go_retention_events, herr]
    rfl
  · rw [nukePass1Run, pass1Go_mrd, herr, foldl_updateRetain_none]
    rfl

/-- C6: during pass 1 a retention probe is issued for exactly those delete
errors whose `Code` is `AccessDenied`, in order (errors with any other
code are skipped), and the discovered maximum equals the maximum
`RetainUntilDate` over the probes that succeed across the whole pass,
unset if none succeed. -/
theorem nuke_bucket_probes (o : NukeOracle) (bucket : String) :
    ((nukePass1Run o bucket).1.filterMap Event.retentionTarget) =
      (deniedErrors o bucket).map (fun e => (bucket, e.key, e.versionId)) ∧
    (nukePass1Run o bucket).2 =
      ((deniedErrors o bucket).filterMap (fun e => o.probe e.key e.versionId)).max? :=
  nukePass1_probe_spec o bucket

/-- C7: a failing retention probe (a `ClientError` from
`get_object_retention`) is swallowed: the pass still probes every
`AccessDenied` error, the failed probe contributes nothing to the
running maximum, and the only way the reclamation fails is the over-60s
retention bound — never the probe failure itself. -/
theorem nuke_bucket_probe_failure (o : NukeOracle) (bucket : String)
    (err : DeleteError) (_he : err ∈ deniedErrors o bucket)
    (_hf : o.probe err.key err.versionId = none) :
    ((nukePass1Run o bucket).1.filterMap Event.retentionTarget) =
      (deniedErrors o bucket).map (fun e => (bucket, e.key, e.versionId)) ∧
    (nukePass1Run o bucket).2 =
      ((deniedErrors o bucket).filterMap (fun e => o.probe e.key e.versionId)).max? ∧
    ((nuke_bucket o bucket).2 = Except.ok () ∨
      ∃ m, (nukePass1Run o bucket).2 = some m ∧ m - o.now > 60) := by
  refine ⟨(nukePass1_probe_spec o bucket).1, (nukePass1_probe_spec o bucket).2, ?_⟩
  rcases h2 : (nukePass1Run o bucket).2 with _ | m
  · left
    simp only [nuke_bucket, h2]
  · by_cases hgt : m > o.now
    · by_cases hd : m - o.now > 60
      · right
        exact ⟨m, rfl, hd⟩
      · left
        simp only [nuke_bucket, h2]
        rw [if_pos hgt, if_neg hd]
    · left
      simp only [nuke_bucket, h2]
      rw [if_neg hgt]

/-- C2: when the maximum discovered retention exceeds the current time by
more than 60 seconds, `nuke_bucket` raises a `RuntimeError` carrying the
bucket name and the remaining seconds, performs no sleep, and never
issues the bucket-delete call. -/
theorem nuke_bucket_fail_fast (o : NukeOracle) (bucket : String) (m : ℚ)
    (hm : (nukePass1Run o bucket).2 = some m)
    (hd : m - o.now > 60) :
    (nuke_bucket o bucket).2 = Except.error (retainMsg bucket (m - o.now)) ∧
    (nuke_bucket o bucket).1 = (nukePass1Run o bucket).1 ∧
    ∀ e ∈ (nuke_bucket o bucket).1, e.isSleep = false ∧ e.isDeleteBucket = false := by
  have hgt : m > o.now := by linarith
  simp only [nuke_bucket, hm]
  rw [if_pos hgt, if_pos hd]
  refine ⟨rfl, rfl, ?_⟩
  intro e he
  simp only [nukePass1Run] at he
  exact pass1Go_kinds o bucket _ 0 none e he

/-- C5: with a discovered retention maximum, `nuke_bucket` sleeps exactly
the remaining `delta` seconds and then runs pass 2 when
`0 < delta ≤ 60`, and runs pass 2 immediately with no sleep at all when
the hold has already expired (`delta ≤ 0`); both paths end by deleting
the bucket. -/
theorem nuke_bucket_wait (o : NukeOracle) (bucket : String) (m : ℚ)
    (hm : (nukePass1Run o bucket).2 = some m) :
    (m > o.now → m - o.now ≤ 60 →
      (nuke_bucket o bucket).1 =
        (nukePass1Run o bucket).1 ++ [Event.sleep (m - o.now)] ++
          pass2Events o bucket ++ [Event.deleteBucket bucket] ∧
      (nuke_bucket o bucket).2 = Except.ok ()) ∧
    (m ≤ o.now →
      (nuke_bucket o bucket).1 =
        (nukePass1Run o bucket).1 ++ pass2Events o bucket ++
          [Event.deleteBucket bucket] ∧
      (∀ e ∈ (nuke_bucket o bucket).1, e.isSleep = false) ∧
      (nuke_bucket o bucket).2 = Except.ok ()) := by
  constructor
  · intro hgt hle
    simp only [nuke_bucket, hm]
    rw [if_pos hgt, if_neg (not_lt.mpr hle)]
    exact ⟨rfl, rfl⟩
  · intro hle
    have hgt : ¬ m > o.now := not_lt.mpr hle
    simp only [nuke_bucket, hm]
    rw [if_neg hgt]
    refine ⟨rfl, ?_, rfl⟩
    intro e he
    simp only [List.mem_append, List.mem_singleton] at he
    rcases he with (he | he) | rfl
    · simp only [nukePass1Run] at he
      exact (pass1Go_kinds o bucket _ 0 none e he).1
    · simp only [pass2Events] at he
      exact (pass2Go_kinds bucket _ e he).1
    · rfl

/-- C1 (amended): pass 2 runs exactly when pass 1 discovered a retention
hold that is resolvable (already expired, or expiring within the
60-second bound); when pass 1 found no `AccessDenied`-attributed hold at
all, pass 2 is skipped and the bucket is deleted directly after pass 1. -/
theorem nuke_bucket_pass2_condition (o : NukeOracle) (bucket : String) :
    ((nukePass1Run o bucket).2 = none →
      (nuke_bucket o bucket).1 =
        (nukePass1Run o bucket).1 ++ [Event.deleteBucket bucket] ∧
      (nuke_bucket o bucket).2 = Except.ok ()) ∧
    (∀ m, (nukePass1Run o bucket).2 = some m →
      ¬(m > o.now ∧ m - o.now > 60) →
      ∃ pre, (nuke_bucket o bucket).1 =
        pre ++ pass2Events o bucket ++ [Event.deleteBucket bucket] ∧
      (nuke_bucket o bucket).2 = Except.ok ()) := by
  constructor
  · intro h
    simp only [nuke_bucket, h]
    exact ⟨trivial, trivial⟩
  · intro m hm hcond
    simp only [nuke_bucket, hm]
    by_cases hgt : m > o.now
    · have hle : ¬ m - o.now > 60 := fun hx => hcond ⟨hgt, hx⟩
      rw [if_pos hgt, if_neg hle]
      exact ⟨(nukePass1Run o bucket).1 ++ [Event.sleep (m - o.now)],
        by simp, rfl⟩
    · rw [if_neg hgt]
      exact ⟨(nukePass1Run o bucket).1, by simp, rfl⟩

/-- A reclamation in which pass 1 finds no retention hold: one page with
one version, whose delete succeeds with no per-object errors; the
bucket's pass-2 listing would still have content to enumerate. -/
def oNoHold : NukeOracle :=
  { pass1Pages := [⟨[⟨"k", "v1"⟩], [], false, none, none⟩]
    deleteErrors := [[]]
    probe := fun _ _ => none
    now := 0
    pass2Pages := [⟨[⟨"k", "v1"⟩], [], false, none, none⟩] }

/-- C1 counterexample: with no `AccessDenied` hold discovered in pass 1
(no probe issued, no retention maximum), `nuke_bucket` does NOT re-run
the enumeration: the trace holds exactly one listing request — pass 1's —
and goes straight to the bucket delete, although the claim requires a
second full re-enumeration with bypass-retention deletes. -/
theorem nuke_bucket_no_second_pass_cex :
    (nukePass1Run oNoHold "b").2 = none ∧
    ((nuke_bucket oNoHold "b").1.filterMap Event.retentionTarget) = [] ∧
    (nuke_bucket oNoHold "b").1 =
      [Event.listReq ⟨"b", 128, none, none⟩,
       Event.deleteObjects "b" [⟨"k", "v1"⟩] true true,
       Event.deleteBucket "b"] ∧
    ((nuke_bucket oNoHold "b").1.filter Event.isListReq).length = 1 ∧
    (nuke_bucket oNoHold "b").2 = Except.ok () :=
  ⟨rfl, rfl, rfl, rfl, rfl⟩

theorem nuke_bucket_pass2_condition_witness :
    (nukePass1Run oNoHold "b").2 = none ∧
    (nuke_bucket oNoHold "b").1 =
      (nukePass1Run oNoHold "b").1 ++ [Event.deleteBucket "b"] :=
  ⟨rfl, ((nuke_bucket_pass2_condition oNoHold "b").1 rfl).1⟩

/-- A reclamation that discovers an object locked for 120 more seconds. -/
def oLocked : NukeOracle :=
  { pass1Pages := [⟨[⟨"k", "v1"⟩], [], false, none, none⟩]
    deleteErrors := [[⟨"k", "v1", some "AccessDenied"⟩]]
    probe := fun _ _ => some 120
    now := 0
    pass2Pages := [] }

theorem nuke_bucket_fail_fast_witness :
    (nukePass1Run oLocked "b").2 = some 120 ∧
    ((120 : ℚ) - oLocked.now > 60) ∧
    (nuke_bucket oLocked "b").2 =
      Except.error (retainMsg "b" ((120 : ℚ) - oLocked.now)) :=
  ⟨rfl, by norm_num [oLocked],
    (nuke_bucket_fail_fast oLocked "b" 120 rfl (by norm_num [oLocked])).1⟩

/-- A reclamation that discovers an object locked for 30 more seconds. -/
def oShort : NukeOracle :=
  { pass1Pages := [⟨[⟨"k", "v1"⟩], [], false, none, none⟩]
    deleteErrors := [[⟨"k", "v1", some "AccessDenied"⟩]]
    probe := fun _ _ => some 30
    now := 0
    pass2Pages := [⟨[⟨"k", "v1"⟩], [], false, none, none⟩] }

theorem nuke_bucket_wait_witness :
    (nukePass1Run oShort "b").2 = some 30 ∧
    ((30 : ℚ) > oShort.now) ∧ ((30 : ℚ) - oShort.now ≤ 60) ∧
    (nuke_bucket oShort "b").1 =
      (nukePass1Run oShort "b").1 ++ [Event.sleep ((30 : ℚ) - oShort.now)] ++
        pass2Events oShort "b" ++ [Event.deleteBucket "b"] :=
  ⟨rfl, by norm_num [oShort], by norm_num [oShort],
    ((nuke_bucket_wait oShort "b" 30 rfl).1 (by norm_num [oShort])
      (by norm_num [oShort])).1⟩

/-- A reclamation with two `AccessDenied` errors whose first retention
probe fails with a `ClientError` and whose second succeeds with an
already-expired hold. -/
def oProbeFail : NukeOracle :=
  { pass1Pages := [⟨[⟨"k1", "v1"⟩, ⟨"k2", "v2"⟩], [], false, none, none⟩]
    deleteErrors := [[⟨"k1", "v1", some "AccessDenied"⟩,
                     ⟨"k2", "v2", some "AccessDenied"⟩]]
    probe := fun k _ => if k = "k2" then some 0 else none
    now := 0
    pass2Pages := [] }

theorem nuke_bucket_probe_failure_witness :
    ((⟨"k1", "v1", some "AccessDenied"⟩ : DeleteError) ∈ deniedErrors oProbeFail "b") ∧
    oProbeFail.probe "k1" "v1" = none ∧
    ((nuke_bucket oProbeFail "b").2 = Except.ok () ∨
      ∃ m, (nukePass1Run oProbeFail "b").2 = some m ∧ m - oProbeFail.now > 60) :=
  ⟨by decide, by decide,
    (nuke_bucket_probe_failure oProbeFail "b" ⟨"k1", "v1", some "AccessDenied"⟩
      (by decide) (by decide)).2.2⟩

/-- Two pages of a well-formed listing, used to instantiate the
`list_versions` contract. -/
def pagesDemo : List ListingResponse :=
  [⟨[⟨"a", "1"⟩], [⟨"a", "d1"⟩], true, some "a", some "d1"⟩,
   ⟨[⟨"b", "2"⟩], [], false, none, none⟩]

theorem list_versions_spec_witness :
    wfPages pagesDemo = true ∧
    ((list_versions "bkt" 2 pagesDemo).1.filterMap Prod.snd).flatten =
      (pagesDemo.map pageObjs).flatten ∧
    (list_versions "bkt" 2 pagesDemo).1.map Prod.fst =
      (⟨"bkt", 2, none, none⟩ : LVRequest) ::
        pagesDemo.dropLast.map (fun p =>
          ⟨"bkt", 2, some p.nextKeyMarker, some p.nextVersionIdMarker⟩) :=
  ⟨by decide,
   (list_versions_spec "bkt" 2 pagesDemo (by decide) (by decide)).2.2.1,
   (list_versions_spec "bkt" 2 pagesDemo (by decide) (by decide)).2.1⟩

/-- The error component of a reclamation outcome. -/
def errOf {E : Type} : Except E Unit → Option E
  | Except.error e => some e
  | Except.ok _ => none

/-- The `for bucket_name in buckets` loop of `nuke_prefixed_buckets`:
each bucket is attempted in order; a failure overwrites the recorded
`err` and the loop continues.  The first component records which buckets
were attempted, in order.  `nuke` abstracts `nuke_bucket(client, ·)`
together with its oracle. -/
def nukeLoop {E : Type} (nuke : String → Except E Unit) :
    List String → Option E → List String × Option E
  | [], err => ([], err)
  | b :: rest, err =>
    let err1 := match nuke b with
      | Except.ok _ => err
      | Except.error e => some e
    let r := nukeLoop nuke rest err1
    (b :: r.1, r.2)

/-- The namespace reclaimer `nuke_prefixed_buckets`: run the loop with no recorded
error; afterwards re-raise the recorded error if any, else succeed. -/
def nuke_prefixed_buckets {E : Type} (nuke : String → Except E Unit)
    (buckets : List String) : List String × Except E Unit :=
  let r := nukeLoop nuke buckets none
  (r.1,
   match r.2 with
   | some e => Except.error e
   | none => Except.ok ())

theorem nukeLoop_attempts {E : Type} (nuke : String → Except E Unit) :
    ∀ (bs : List String) (err : Option E), (nukeLoop nuke bs err).1 = bs := by
  intro bs
  induction bs with
  | nil => intro err; rfl
  | cons b rest ih =>
    intro err
    simp only [nukeLoop, ih]

theorem getLast?_cons_eq {α : Type} (a : α) (l : List α) :
    (a :: l).getLast? = match l.getLast? with
      | none => some a
      | some x => some x := by
  induction l generalizing a with
  | nil => rfl
  | cons b l ih =>
    rw [List.getLast?_cons_cons, ih b]
    cases h : l.getLast? <;> rfl

theorem nukeLoop_err {E : Type} (nuke : String → Except E Unit) :
    ∀ (bs : List String) (err : Option E),
      (nukeLoop nuke bs err).2 =
        match (bs.filterMap (fun b => errOf (nuke b))).getLast? with
        | none => err
        | some e => some e := by
  intro bs
  induction bs with
  | nil => intro err; rfl
  | cons b rest ih =>
    intro err
    cases hn : nuke b with
    | ok u =>
      have hfm : (b :: rest).filterMap (fun x => errOf (nuke x)) =
          rest.filterMap (fun x => errOf (nuke x)) := by
        simp [List.filterMap_cons, hn, errOf]
      have hstep : (nukeLoop nuke (b :: rest) err).2 = (nukeLoop nuke rest err).2 := by
        simp [nukeLoop, hn]
      rw [hstep, ih err, hfm]
    | error e =>
      have hfm : (b :: rest).filterMap (fun x => errOf (nuke x)) =
          e :: rest.filterMap (fun x => errOf (nuke x)) := by
        simp [List.filterMap_cons, hn, errOf]
      have hstep : (nukeLoop nuke (b :: rest) err).2 =
          (nukeLoop nuke rest (some e)).2 := by
        simp [nukeLoop, hn]
      rw [hstep, ih (some e), hfm,
        getLast?_cons_eq e (rest.filterMap (fun x => errOf (nuke x)))]
      cases h : (rest.filterMap (fun x => errOf (nuke x))).getLast? <;> rfl

/-- C3: `nuke_prefixed_buckets` attempts every bucket in order even when
earlier reclamations fail; afterwards, exactly the last recorded failure
is re-raised (earlier failures are discarded), and the call succeeds
when no reclamation failed. -/
theorem nuke_prefixed_buckets_spec {E : Type} (nuke : String → Except E Unit)
    (buckets : List String) :
    (nuke_prefixed_buckets nuke buckets).1 = buckets ∧
    (nuke_prefixed_buckets nuke buckets).2 =
      (match (buckets.filterMap (fun b => errOf (nuke b))).getLast? with
       | none => Except.ok ()
       | some e => Except.error e) := by
  constructor
  · simp only [nuke_prefixed_buckets]
    exact nukeLoop_attempts nuke buckets none
  · simp only [nuke_prefixed_buckets, nukeLoop_err]
    cases h : (buckets.filterMap (fun b => errOf (nuke b))).getLast? <;> rfl

/-- One instrumentation event of `log_and_call`: entering the
`allure.step` context, the synchronous invocation of the original
method, the attachment of the call's arguments, and the attachment of
the response. -/
inductive LogEvent (Args Res : Type) where
  | stepStart (name : String)
  | invoke (name : String) (args : Args)
  | attachArgs (name : String) (args : Args)
  | attachResponse (res : Res)
deriving DecidableEq, Repr

/-- The wrapper `log_and_call(original_method)` applied to `args`: enter the step,
invoke the original method with the arguments unaltered, then attach the
arguments and the response, and return the response unchanged.  When the
call raises, the error propagates out of the step context before either
attachment happens. -/
def log_and_call {Args Res Err : Type} (name : String)
    (original : Args → Except Err Res) (args : Args) :
    List (LogEvent Args Res) × Except Err Res :=
  match original args with
  | Except.ok r =>
    ([LogEvent.stepStart name, LogEvent.invoke name args,
      LogEvent.attachArgs name args, LogEvent.attachResponse r],
     Except.ok r)
  | Except.error e =>
    ([LogEvent.stepStart name, LogEvent.invoke name args], Except.error e)

/-- The wrapped boto3 client: `getattr` behaviour (`none` models a
missing attribute, i.e. an `AttributeError`), and the keys of
`_PY_TO_OP_NAME` — the names of the genuine remote operations. -/
structure PyClient (Args Res Err : Type) where
  attrs : String → Option (Args → Except Err Res)
  pyToOpName : List String

/-- The proxy constructor `WrappedClient.__init__` stores the client. -/
structure WrappedClient (Args Res Err : Type) where
  client : PyClient Args Res Err

/-- The result of attribute access on the proxy: an `AttributeError`, the
original attribute unmodified, or the `log_and_call`-wrapped method. -/
inductive GetattrResult (Args Res Err : Type) where
  | attributeError
  | plain (f : Args → Except Err Res)
  | logged (f : Args → List (LogEvent Args Res) × Except Err Res)

/-- Attribute access `WrappedClient.__getattr__`: resolve the name on the wrapped client
first (propagating `AttributeError`); if it is a recognized operation
name, return the `log_and_call`-wrapped method, otherwise return the
original attribute unmodified. -/
def WrappedClient.getattr {Args Res Err : Type}
    (w : WrappedClient Args Res Err) (item : String) :
    GetattrResult Args Res Err :=
  match w.client.attrs item with
  | none => GetattrResult.attributeError
  | some f =>
    if item ∈ w.client.pyToOpName then
      GetattrResult.logged (log_and_call item f)
    else
      GetattrResult.plain f

/-- C8: the proxy is transparent.  A recognized operation resolves to the
wrapped method, which returns (or raises) exactly what the original
method returns (or raises) on exactly the given arguments — the `invoke`
event carries the arguments unaltered; a non-recognized name resolves to
the original attribute unmodified, with no logging wrapper at all. -/
theorem wrappedClient_transparent {Args Res Err : Type}
    (w : WrappedClient Args Res Err) (item : String)
    (f : Args → Except Err Res) (hf : w.client.attrs item = some f) :
    (item ∈ w.client.pyToOpName →
      w.getattr item = GetattrResult.logged (log_and_call item f) ∧
      ∀ args, (log_and_call item f args).2 = f args ∧
        LogEvent.invoke item args ∈ (log_and_call item f args).1) ∧
    (item ∉ w.client.pyToOpName →
      w.getattr item = GetattrResult.plain f) := by
  constructor
  · intro hmem
    refine ⟨by simp [WrappedClient.getattr, hf, hmem], ?_⟩
    intro args
    constructor
    · cases h : f args <;> simp [log_and_call, h]
    · cases h : f args <;> simp [log_and_call, h]
  · intro hmem
    simp [WrappedClient.getattr, hf, hmem]

/-- Discriminator for argument-attachment events. -/
def LogEvent.isAttachArgs {Args Res : Type} : LogEvent Args Res → Bool
  | .attachArgs _ _ => true
  | _ => false

/-- Discriminator for invocation events. -/
def LogEvent.isInvoke {Args Res : Type} : LogEvent Args Res → Bool
  | .invoke _ _ => true
  | _ => false

/-- Some argument-recording event strictly precedes some invocation event
in the trace. -/
def argsRecordedBeforeInvoke {Args Res : Type}
    (t : List (LogEvent Args Res)) : Prop :=
  ∃ i j : Fin t.length, i < j ∧
    (t.get i).isAttachArgs = true ∧ (t.get j).isInvoke = true

/-- Some invocation event strictly precedes some argument-recording event
in the trace. -/
def invokeRecordedBeforeArgs {Args Res : Type}
    (t : List (LogEvent Args Res)) : Prop :=
  ∃ i j : Fin t.length, i < j ∧
    (t.get i).isInvoke = true ∧ (t.get j).isAttachArgs = true

/-- A sample instrumented operation. -/
def fDemo : Nat → Except Unit Nat := fun n => Except.ok (n + 1)

/-- C9 counterexample: calling a recognized operation through
`log_and_call` does NOT record the arguments before the invocation — the
underlying method is invoked first and the arguments are attached only
afterwards, as the concrete trace shows. -/
theorem log_and_call_order_cex :
    ¬ argsRecordedBeforeInvoke (log_and_call "get_object" fDemo 5).1 ∧
    invokeRecordedBeforeArgs (log_and_call "get_object" fDemo 5).1 ∧
    (log_and_call "get_object" fDemo 5).1 =
      [LogEvent.stepStart "get_object", LogEvent.invoke "get_object" 5,
       LogEvent.attachArgs "get_object" 5, LogEvent.attachResponse 6] :=
  ⟨by unfold argsRecordedBeforeInvoke; decide,
   by unfold invokeRecordedBeforeArgs; decide, rfl⟩

/-- C9 (amended): for a recognized call the wrapper invokes the
underlying method synchronously first; on success it then records the
call's arguments and the result to the trace, in that order, and returns
the result unchanged; when the call raises, the error propagates
unchanged and neither attachment happens. -/
theorem log_and_call_order {Args Res Err : Type} (name : String)
    (f : Args → Except Err Res) (args : Args) :
    (∀ r, f args = Except.ok r →
      log_and_call name f args =
        ([LogEvent.stepStart name, LogEvent.invoke name args,
          LogEvent.attachArgs name args, LogEvent.attachResponse r],
         Except.ok r)) ∧
    (∀ e, f args = Except.error e →
      log_and_call name f args =
        ([LogEvent.stepStart name, LogEvent.invoke name args],
         Except.error e)) := by
  constructor <;> intro x hx <;> simp [log_and_call, hx]

theorem log_and_call_order_witness :
    fDemo 5 = Except.ok 6 ∧
    log_and_call "get_object" fDemo 5 =
      ([LogEvent.stepStart "get_object", LogEvent.invoke "get_object" 5,
        LogEvent.attachArgs "get_object" 5, LogEvent.attachResponse 6],
       Except.ok 6) :=
  ⟨rfl, (log_and_call_order "get_object" fDemo 5).1 6 rfl⟩

/-- C10: a name missing on the wrapped client raises `AttributeError`
through the proxy exactly as direct access would: the name is resolved
on the wrapped client before the operation-name membership test, so the
result is `AttributeError` whatever the operation-name set holds, and
this path consults nothing but the stored client. -/
theorem wrappedClient_missing_attr {Args Res Err : Type}
    (w : WrappedClient Args Res Err) (item : String)
    (h : w.client.attrs item = none) :
    w.getattr item = GetattrResult.attributeError ∧
    ∀ ops, WrappedClient.getattr
        (⟨{ w.client with pyToOpName := ops }⟩ : WrappedClient Args Res Err) item =
      GetattrResult.attributeError := by
  constructor
  · simp [WrappedClient.getattr, h]
  · intro ops
    simp [WrappedClient.getattr, h]

/-- A sample helper (non-operation) attribute. -/
def fHelper : Nat → Except Unit Nat := fun n => Except.ok (n * 2)

/-- A sample client exposing one recognized operation and one helper. -/
def pcDemo : PyClient Nat Nat Unit :=
  { attrs := fun s =>
      if s = "delete_objects" then some fDemo
      else if s = "helper" then some fHelper
      else none
    pyToOpName := ["delete_objects", "list_buckets"] }

/-- The sample client, wrapped. -/
def wcDemo : WrappedClient Nat Nat Unit := ⟨pcDemo⟩

theorem wrappedClient_transparent_witness :
    pcDemo.attrs "delete_objects" = some fDemo ∧
    ("delete_objects" ∈ pcDemo.pyToOpName) ∧
    wcDemo.getattr "delete_objects" =
      GetattrResult.logged (log_and_call "delete_objects" fDemo) ∧
    ("helper" ∉ pcDemo.pyToOpName) ∧
    wcDemo.getattr "helper" = GetattrResult.plain fHelper :=
  ⟨rfl, by decide,
   ((wrappedClient_transparent wcDemo "delete_objects" fDemo rfl).1 (by decide)).1,
   by decide,
   (wrappedClient_transparent wcDemo "helper" fHelper rfl).2 (by decide)⟩

theorem wrappedClient_missing_attr_witness :
    pcDemo.attrs "totally_absent" = none ∧
    wcDemo.getattr "totally_absent" = GetattrResult.attributeError :=
  ⟨rfl, (wrappedClient_missing_attr wcDemo "totally_absent" rfl).1⟩
